import Mathlib

/-!
Shallow embedding of the replicated planning-poker session protocol from
`src/App.tsx` (the `handleMessage` reducer and its helpers) together with the
data model from the repository type declarations.

Conventions of the embedding:
* TypeScript `string | number` vote values become the inductive `Value`;
  JavaScript numbers are modelled as rationals.
* JavaScript `null`-able fields become `Option`; JavaScript truthiness tests on
  `string | null` fields (`if (x)`) are modelled by `jsTruthy`, which is false
  exactly on `null` and on the empty string.
* `Record<string, V>` objects become insertion-ordered association lists; the
  object spread upsert `{ ...o, [k]: v }` keeps an existing key at its original
  position and appends a fresh key at the end, which `upsertVote` mirrors.
* `Number(v)` / `parseInt(v)` on the card tokens of this application (decimal
  natural numerals, the question-mark token, the coffee token) are modelled
  by a digit parser: numerals
  parse to their value, the other tokens are NaN (i.e. `none`).
* `Array.prototype.sort` with the comparator `count(a) - count(b)` is the
  stable ascending sort by occurrence count, modelled by `List.insertionSort`
  with the relation `count a ≤ count b` (stable, ascending); `pop()` on the
  sorted array is `List.getLast?`.
-/

namespace PlanningPoker

/-- A vote / score value: TypeScript `string | number`. -/
inductive Value where
  | num (q : ℚ)
  | str (s : String)
deriving DecidableEq, Repr

/-- Value of a decimal digit character, `none` on any other character. -/
def digitVal? (c : Char) : Option Nat :=
  if ('0' ≤ c ∧ c ≤ '9') then some (c.toNat - '0'.toNat) else none

/-- Decimal natural-numeral parser over a character list: `none` on the empty
list and whenever a non-digit occurs. -/
def parseNatChars : List Char → Option Nat
  | [] => none
  | cs => cs.foldl (fun acc c =>
      match acc, digitVal? c with
      | some n, some d => some (n * 10 + d)
      | _, _ => none) (some 0)

/-- JavaScript string-to-number parsing on the token domain of this application:
a decimal natural numeral parses to its value; every other token (for example
the question-mark and coffee tokens) is NaN, modelled as `none`. -/
def jsToNat? (s : String) : Option Nat := parseNatChars s.data

/-- JavaScript `Number(v)` on the values of this application: a number converts
to itself, a string parses via `jsToNat?`. -/
def jsNumber : Value → Option ℚ
  | .num q => some q
  | .str s => (jsToNat? s).map (fun n => (n : ℚ))

/-- `User` from the repository type declarations. -/
structure User where
  id : String
  name : String
  isHost : Bool
deriving DecidableEq, Repr

/-- Task status domain: pending, active, completed. -/
inductive TaskStatus where
  | pending
  | active
  | completed
deriving DecidableEq, Repr

/-- `Task` from the repository type declarations; the optional `finalScore`
is an `Option`. -/
structure Task where
  id : String
  title : String
  status : TaskStatus
  finalScore : Option Value := none
deriving DecidableEq, Repr

/-- `GameState` from the repository type declarations; `votes` is the
insertion-ordered association list modelling `Record<string, string | number>`. -/
structure GameState where
  roomId : Option String
  users : List User
  votes : List (String × Value)
  tasks : List Task
  currentTaskId : Option String
  isRevealed : Bool
deriving DecidableEq, Repr

/-- The card deck `FIBONACCI_SEQ` from the repository type declarations. -/
def FIBONACCI_SEQ : List String := ["0", "1", "2", "3", "5", "8", "13", "21", "34", "55", "?", "☕"]

/-- `FIBONACCI_SEQ.map(v => parseInt(v)).filter(n => !isNaN(n))` from
`getClosestFibonacci`. -/
def fibNums : List ℚ := (FIBONACCI_SEQ.filterMap jsToNat?).map (fun n => (n : ℚ))

/-- `Array.prototype.reduce` without an initial value, specialised to the
closest-to-`q` accumulator of `getClosestFibonacci`; the empty case never
occurs on `fibNums`. -/
def reduceClosest (q : ℚ) : List ℚ → ℚ
  | [] => 0
  | p :: rest => rest.foldl (fun prev curr => if |curr - q| < |prev - q| then curr else prev) p

/-- `getClosestFibonacci` from `src/App.tsx`. -/
def getClosestFibonacci (q : ℚ) : ℚ := reduceClosest q fibNums

/-- `votes.filter(v => v === a).length`: occurrence count of a value. -/
def countVal (vals : List Value) (a : Value) : Nat := (vals.filter (fun v => v == a)).length

/-- `votes.sort((a, b) => votes.filter(v => v===a).length - votes.filter(v => v===b).length)`:
the stable ascending sort of the vote values by occurrence count. -/
def sortVotes (vals : List Value) : List Value :=
  List.insertionSort (fun a b => countVal vals a ≤ countVal vals b) vals

/-- `reduce((a, b) => a + b, 0)` followed by division by the length: the
arithmetic mean used by the `RESET` handler. -/
def meanOf (l : List ℚ) : ℚ := (l.foldl (· + ·) 0) / (l.length : ℚ)

/-- The final-score computation of the `RESET` handler in `src/App.tsx`
(lines 185–205), as a function of `Object.values(prev.votes)`. -/
def computeFinalScore (vals : List Value) : Option Value :=
  if vals.length > 0 then
    let numericVotes := vals.filterMap jsNumber
    if numericVotes.length > 0 then
      some (.num (getClosestFibonacci (meanOf numericVotes)))
    else
      (sortVotes vals).getLast?
  else
    none

/-- Object-spread upsert `{ ...prev.votes, [userId]: value }`: an existing key
keeps its position and gets the new value, a fresh key is appended. -/
def upsertVote (votes : List (String × Value)) (k : String) (v : Value) : List (String × Value) :=
  if votes.any (fun p => p.1 == k) then
    votes.map (fun p => if p.1 == k then (k, v) else p)
  else
    votes ++ [(k, v)]

/-- JavaScript truthiness of a `string | null` value: `null` and `""` are
falsy, every other string is truthy. -/
def jsTruthy : Option String → Bool
  | none => false
  | some s => s != ""

/-- `remainingUsers.map((u, index) => index === 0 ? { ...u, isHost: true } : u)`:
the admin-succession promotion of the first remaining user. -/
def promoteFirst : List User → List User
  | [] => []
  | u :: rest => { u with isHost := true } :: rest

/-- The per-type payloads of `NetworkMessage` (`payload: any` in the source,
with one shape per message type). -/
inductive MsgPayload where
  | join (user : User)
  | userLeft (id : String)
  | promoteUser (targetUserId : String)
  | syncRequest
  | syncResponse (state : GameState)
  | vote (userId : String) (value : Value)
  | reveal
  | reset
  | addTask (task : Task)
  | deleteTask (taskId : String)
  | updateTask (id : String) (title : String)
  | selectTask (taskId : String)
deriving DecidableEq, Repr

/-- The message envelope `{ type, roomId, senderId, payload }`. -/
structure NetworkMessage where
  roomId : String
  senderId : String
  payload : MsgPayload
deriving DecidableEq, Repr

/-- The local replica: the `gameState` store together with the local
participant `currentUser`. -/
structure AppState where
  game : GameState
  currentUser : Option User
deriving DecidableEq, Repr

/-- `Object.values(prev.votes)`. -/
def votesValues (g : GameState) : List Value := g.votes.map Prod.snd

/-- The numeric votes `votes.map(v => Number(v)).filter(n => !isNaN(n))`. -/
def numericVotesOf (g : GameState) : List ℚ := (votesValues g).filterMap jsNumber

/-- The body of `handleMessage` after the room guard: one `switch` case per
message type.  Returns the next local state and the list of envelopes sent via
`socketService.send` while handling the message. -/
def dispatch (st : AppState) (msg : NetworkMessage) : AppState × List NetworkMessage :=
  match msg.payload with
  | .join newUser =>
      let game' :=
        if st.game.users.any (fun u => u.id == newUser.id) then st.game
        else { st.game with users := st.game.users ++ [newUser] }
      let out :=
        match st.currentUser with
        | some cu =>
            if cu.isHost && newUser.id != cu.id then
              let currentUsers := st.game.users
              let updatedUsers :=
                if currentUsers.any (fun u => u.id == newUser.id) then currentUsers
                else currentUsers ++ [newUser]
              [{ roomId := msg.roomId, senderId := cu.id,
                 payload := .syncResponse { st.game with users := updatedUsers } }]
            else []
        | none => []
      ({ st with game := game' }, out)
  | .userLeft leftUserId =>
      let leavingUser := st.game.users.find? (fun u => u.id == leftUserId)
      let remainingUsers := st.game.users.filter (fun u => u.id != leftUserId)
      let hostLeft := match leavingUser with
        | some u => u.isHost
        | none => false
      let doPromote := hostLeft && remainingUsers.length > 0
      let updatedUsers := if doPromote then promoteFirst remainingUsers else remainingUsers
      let currentUser' :=
        if doPromote then
          match updatedUsers.head?, st.currentUser with
          | some u0, some cu =>
              if u0.id == cu.id then some { cu with isHost := true } else some cu
          | _, _ => st.currentUser
        else st.currentUser
      ({ game := { st.game with
            users := updatedUsers,
            votes := st.game.votes.filter (fun p => p.1 != leftUserId) },
         currentUser := currentUser' }, [])
  | .promoteUser targetUserId =>
      let updatedUsers := st.game.users.map (fun u => { u with isHost := u.id == targetUserId })
      let currentUser' :=
        match st.currentUser with
        | some cu =>
            if cu.id == targetUserId then some { cu with isHost := true }
            else if cu.isHost then some { cu with isHost := false }
            else some cu
        | none => none
      ({ game := { st.game with users := updatedUsers }, currentUser := currentUser' }, [])
  | .syncRequest =>
      let out :=
        match st.currentUser with
        | some cu =>
            if cu.isHost then
              [{ roomId := msg.roomId, senderId := cu.id, payload := .syncResponse st.game }]
            else []
        | none => []
      (st, out)
  | .syncResponse s =>
      let currentUser' :=
        match st.currentUser with
        | some cu =>
            match s.users.find? (fun u => u.id == cu.id) with
            | some meInState =>
                if meInState.isHost != cu.isHost then some { cu with isHost := meInState.isHost }
                else some cu
            | none => some cu
        | none => none
      ({ game := s, currentUser := currentUser' }, [])
  | .vote userId value =>
      ({ st with game := { st.game with votes := upsertVote st.game.votes userId value } }, [])
  | .reveal =>
      ({ st with game := { st.game with isRevealed := true } }, [])
  | .reset =>
      let updatedTasks :=
        if jsTruthy st.game.currentTaskId then
          let finalScore := computeFinalScore (votesValues st.game)
          st.game.tasks.map (fun t =>
            if some t.id == st.game.currentTaskId then
              { t with status := .completed, finalScore := finalScore }
            else t)
        else st.game.tasks
      ({ st with game := { st.game with
            isRevealed := false,
            votes := [],
            tasks := updatedTasks,
            currentTaskId := none } }, [])
  | .addTask task =>
      ({ st with game := { st.game with tasks := st.game.tasks ++ [task] } }, [])
  | .deleteTask taskId =>
      ({ st with game := { st.game with
            tasks := st.game.tasks.filter (fun t => t.id != taskId),
            currentTaskId :=
              if st.game.currentTaskId = some taskId then none else st.game.currentTaskId } }, [])
  | .updateTask tid title =>
      ({ st with game := { st.game with
            tasks := st.game.tasks.map (fun t =>
              if t.id == tid then { t with title := title } else t) } }, [])
  | .selectTask taskId =>
      ({ st with game := { st.game with
            currentTaskId := some taskId,
            votes := [],
            isRevealed := false } }, [])

/-- The room guard
`if (gameStateRef.current.roomId && msg.roomId !== gameStateRef.current.roomId) return;`:
the message is dropped when the local room id is truthy and differs from the
room id of the message. -/
def roomGuardBlocks (g : GameState) (msgRoomId : String) : Bool :=
  match g.roomId with
  | none => false
  | some r => r != "" && msgRoomId != r

/-- `handleMessage` from `src/App.tsx`: the room guard followed by the
per-type dispatch.  A blocked message leaves the state unchanged and sends
nothing. -/
def handleMessage (st : AppState) (msg : NetworkMessage) : AppState × List NetworkMessage :=
  if roomGuardBlocks st.game msg.roomId then (st, [])
  else dispatch st msg

/-! ## Helper lemmas -/

theorem handleMessage_eq_dispatch (st : AppState) (msg : NetworkMessage)
    (h : roomGuardBlocks st.game msg.roomId = false) :
    handleMessage st msg = dispatch st msg := by
  simp [handleMessage, h]

/-! ## Claim C10: the room guard -/

/-- A state whose room id is the empty string: non-null, yet falsy in
JavaScript, so the room guard does not filter on it. -/
def stC10 : AppState :=
  { game := { roomId := some "", users := [], votes := [], tasks := [],
              currentTaskId := none, isRevealed := false },
    currentUser := none }

/-- A message from a room different from the room of `stC10`. -/
def msgC10 : NetworkMessage := { roomId := "X", senderId := "u1", payload := .vote "u1" (.str "5") }

/-- Claim C10 is false as stated: with the non-null local room id `""` (which
is falsy in JavaScript) a message whose room id differs is not filtered — here
a foreign `VOTE` still mutates the votes map. -/
theorem room_guard_counterexample :
    stC10.game.roomId = some "" ∧
    msgC10.roomId ≠ "" ∧
    some msgC10.roomId ≠ stC10.game.roomId ∧
    (handleMessage stC10 msgC10).1.game.votes = [("u1", .str "5")] ∧
    (handleMessage stC10 msgC10).1 ≠ stC10 := by
  refine ⟨rfl, by decide, by decide, by decide, by decide⟩

/-- Claim C10 (amended): an inbound message whose room id differs from the
local non-null, non-empty room id leaves the state unchanged and emits no
reply; messages arriving while the local room id is null — or the falsy empty
string — are not filtered by the guard and go to the regular dispatch. -/
theorem room_guard_frame :
    (∀ (st : AppState) (msg : NetworkMessage) (r : String),
        st.game.roomId = some r → r ≠ "" → msg.roomId ≠ r →
        handleMessage st msg = (st, [])) ∧
    (∀ (st : AppState) (msg : NetworkMessage),
        st.game.roomId = none → handleMessage st msg = dispatch st msg) ∧
    (∀ (st : AppState) (msg : NetworkMessage),
        st.game.roomId = some "" → handleMessage st msg = dispatch st msg) := by
  refine ⟨?_, ?_, ?_⟩
  · intro st msg r h hr hm
    have hb : roomGuardBlocks st.game msg.roomId = true := by
      simp [roomGuardBlocks, h, hr, hm]
    simp [handleMessage, hb]
  · intro st msg h
    have hb : roomGuardBlocks st.game msg.roomId = false := by
      simp [roomGuardBlocks, h]
    simp [handleMessage, hb]
  · intro st msg h
    have hb : roomGuardBlocks st.game msg.roomId = false := by
      simp [roomGuardBlocks, h]
    simp [handleMessage, hb]

/-- A state sitting in room `"R"`. -/
def stC10w : AppState :=
  { game := { roomId := some "R", users := [], votes := [], tasks := [],
              currentTaskId := none, isRevealed := false },
    currentUser := none }

/-- A message for the foreign room `"Z"`. -/
def msgC10w : NetworkMessage := { roomId := "Z", senderId := "u1", payload := .reveal }

/-- Witness for `room_guard_frame`: a foreign-room `REVEAL` is dropped
without any state change or reply. -/
theorem room_guard_frame_witness : handleMessage stC10w msgC10w = (stC10w, []) :=
  room_guard_frame.1 stC10w msgC10w "R" rfl (by decide) (by decide)

/-! ## Claim C5: SYNC_RESPONSE is a wholesale replacement -/

/-- Claim C5: applying `SYNC_RESPONSE` carrying payload state `s` makes the
local session state equal to `s` exactly, regardless of the prior state. -/
theorem sync_response_wholesale_replace (st : AppState) (msg : NetworkMessage) (s : GameState)
    (hg : roomGuardBlocks st.game msg.roomId = false)
    (hp : msg.payload = .syncResponse s) :
    (handleMessage st msg).1.game = s := by
  rw [handleMessage_eq_dispatch st msg hg]
  simp [dispatch, hp]

/-- A divergent prior local state for the `SYNC_RESPONSE` witness. -/
def stC5 : AppState :=
  { game := { roomId := some "R", users := [⟨"a", "A", true⟩], votes := [("a", .str "8")],
              tasks := [⟨"t1", "Old", .active, none⟩], currentTaskId := some "t1",
              isRevealed := true },
    currentUser := none }

/-- The authoritative snapshot carried by the witness `SYNC_RESPONSE`. -/
def syncedC5 : GameState :=
  { roomId := some "R", users := [⟨"a", "A", false⟩, ⟨"b", "B", true⟩], votes := [],
    tasks := [⟨"t2", "New", .pending, none⟩], currentTaskId := none, isRevealed := false }

/-- The witness `SYNC_RESPONSE` envelope. -/
def msgC5 : NetworkMessage := { roomId := "R", senderId := "b", payload := .syncResponse syncedC5 }

/-- Witness for `sync_response_wholesale_replace` on a concrete divergent
prior state. -/
theorem sync_response_wholesale_replace_witness : (handleMessage stC5 msgC5).1.game = syncedC5 :=
  sync_response_wholesale_replace stC5 msgC5 syncedC5 (by decide) rfl

/-! ## Claim C9: DELETE_TASK -/

/-- Claim C9: `DELETE_TASK` removes the task with the given id from `tasks`,
and `currentTaskId` becomes null exactly when it equalled the removed id,
otherwise it is unchanged. -/
theorem delete_task_spec (st : AppState) (msg : NetworkMessage) (tid : String)
    (hg : roomGuardBlocks st.game msg.roomId = false)
    (hp : msg.payload = .deleteTask tid) :
    (handleMessage st msg).1.game.tasks = st.game.tasks.filter (fun t => t.id != tid) ∧
    (handleMessage st msg).1.game.currentTaskId =
      (if st.game.currentTaskId = some tid then none else st.game.currentTaskId) := by
  rw [handleMessage_eq_dispatch st msg hg]
  simp [dispatch, hp]

/-- A state with two tasks, the first being current. -/
def stC9 : AppState :=
  { game := { roomId := some "R", users := [], votes := [],
              tasks := [⟨"t1", "One", .active, none⟩, ⟨"t2", "Two", .pending, none⟩],
              currentTaskId := some "t1", isRevealed := false },
    currentUser := none }

/-- The witness `DELETE_TASK` envelope deleting the current task. -/
def msgC9 : NetworkMessage := { roomId := "R", senderId := "a", payload := .deleteTask "t1" }

/-- Witness for `delete_task_spec`: deleting the current task removes it and
nulls `currentTaskId`. -/
theorem delete_task_spec_witness :
    (handleMessage stC9 msgC9).1.game.tasks =
      stC9.game.tasks.filter (fun t => t.id != "t1") ∧
    (handleMessage stC9 msgC9).1.game.currentTaskId =
      (if stC9.game.currentTaskId = some "t1" then none else stC9.game.currentTaskId) :=
  delete_task_spec stC9 msgC9 "t1" (by decide) rfl

/-! ## Claim C8: JOIN is idempotent -/

theorem join_preserves_roomId (st : AppState) (msg : NetworkMessage) (u : User)
    (hp : msg.payload = .join u) :
    (dispatch st msg).1.game.roomId = st.game.roomId := by
  simp only [dispatch, hp]
  by_cases h : st.game.users.any (fun w => w.id == u.id) <;> simp [h]

theorem join_users_eq (st : AppState) (msg : NetworkMessage) (u : User)
    (hp : msg.payload = .join u) :
    (dispatch st msg).1.game.users =
      (if st.game.users.any (fun w => w.id == u.id) then st.game.users
       else st.game.users ++ [u]) := by
  simp only [dispatch, hp]
  by_cases h : st.game.users.any (fun w => w.id == u.id) <;> simp [h]

/-- Claim C8: applying `JOIN` for the same user id twice is idempotent — the
first application appends the user exactly when no user with that id is
present, and the second application leaves `users` unchanged. -/
theorem join_idempotent (st : AppState) (m1 m2 : NetworkMessage) (u1 u2 : User)
    (hg1 : roomGuardBlocks st.game m1.roomId = false)
    (hg2 : roomGuardBlocks st.game m2.roomId = false)
    (hp1 : m1.payload = .join u1) (hp2 : m2.payload = .join u2)
    (hid : u2.id = u1.id) :
    ((st.game.users.any (fun w => w.id == u1.id)) = true →
        (handleMessage st m1).1.game.users = st.game.users) ∧
    ((st.game.users.any (fun w => w.id == u1.id)) = false →
        (handleMessage st m1).1.game.users = st.game.users ++ [u1]) ∧
    (handleMessage (handleMessage st m1).1 m2).1.game.users =
      (handleMessage st m1).1.game.users := by
  have hroom' : (dispatch st m1).1.game.roomId = st.game.roomId :=
    join_preserves_roomId st m1 u1 hp1
  have hg2' : roomGuardBlocks (dispatch st m1).1.game m2.roomId = false := by
    unfold roomGuardBlocks at hg2 ⊢
    rw [hroom']
    exact hg2
  rw [handleMessage_eq_dispatch st m1 hg1]
  rw [handleMessage_eq_dispatch _ m2 hg2']
  have hu1 := join_users_eq st m1 u1 hp1
  have hany2 : ((dispatch st m1).1.game.users.any (fun w => w.id == u2.id)) = true := by
    rw [hu1, hid]
    by_cases h : (st.game.users.any (fun w => w.id == u1.id)) = true
    · simp only [if_pos h]
      exact h
    · have hfalse : (st.game.users.any (fun w => w.id == u1.id)) = false := by simpa using h
      rw [if_neg (by simp [hfalse]), List.any_append]
      simp
  have h3 : (dispatch (dispatch st m1).1 m2).1.game.users = (dispatch st m1).1.game.users := by
    rw [join_users_eq _ m2 u2 hp2, hany2]
    simp
  refine ⟨fun ht => ?_, fun hf => ?_, h3⟩
  · rw [hu1, if_pos ht]
  · rw [hu1, if_neg (by simp [hf])]

/-- A joining user for the idempotence witness. -/
def userC8 : User := ⟨"c", "C", false⟩

/-- A state not containing `userC8`. -/
def stC8 : AppState :=
  { game := { roomId := some "R", users := [⟨"a", "A", true⟩], votes := [], tasks := [],
              currentTaskId := none, isRevealed := false },
    currentUser := none }

/-- The witness `JOIN` envelope. -/
def msgC8 : NetworkMessage := { roomId := "R", senderId := "c", payload := .join userC8 }

/-- Witness for `join_idempotent`: joining a fresh user appends it once and a
repeated `JOIN` leaves `users` unchanged. -/
theorem join_idempotent_witness :
    (handleMessage stC8 msgC8).1.game.users = stC8.game.users ++ [userC8] ∧
    (handleMessage (handleMessage stC8 msgC8).1 msgC8).1.game.users =
      (handleMessage stC8 msgC8).1.game.users := by
  have h := join_idempotent stC8 msgC8 msgC8 userC8 userC8 (by decide) (by decide) rfl rfl rfl
  exact ⟨h.2.1 (by decide), h.2.2⟩

/-! ## RESET helper lemmas -/

theorem reset_game_eq (st : AppState) (msg : NetworkMessage) (hp : msg.payload = .reset) :
    (dispatch st msg).1.game =
      { st.game with
          isRevealed := false
          votes := []
          tasks :=
            if jsTruthy st.game.currentTaskId then
              st.game.tasks.map (fun t =>
                if some t.id == st.game.currentTaskId then
                  { t with status := .completed,
                           finalScore := computeFinalScore (votesValues st.game) }
                else t)
            else st.game.tasks
          currentTaskId := none } := by
  simp only [dispatch, hp]

theorem computeFinalScore_ne_none (vals : List Value) (h : vals ≠ []) :
    computeFinalScore vals ≠ none := by
  unfold computeFinalScore
  rw [if_pos (List.length_pos.mpr h)]
  by_cases hn : (vals.filterMap jsNumber).length > 0
  · rw [if_pos hn]
    simp
  · rw [if_neg hn]
    have hs : sortVotes vals ≠ [] := by
      unfold sortVotes
      intro hc
      exact h (List.eq_nil_of_length_eq_zero (by
        rw [← List.length_insertionSort (fun a b => countVal vals a ≤ countVal vals b) vals, hc]
        rfl))
    simp only [ne_eq, List.getLast?_eq_none_iff]
    exact hs

/-! ## Claim C1: RESET closes the round -/

/-- A state with a non-null (but falsy, empty-string) current task id and an
empty votes map. -/
def stC1 : AppState :=
  { game := { roomId := some "R", users := [], votes := [],
              tasks := [⟨"", "T", .active, none⟩], currentTaskId := some "",
              isRevealed := true },
    currentUser := none }

/-- The `RESET` envelope for the C1 counterexample. -/
def msgC1 : NetworkMessage := { roomId := "R", senderId := "h", payload := .reset }

/-- Claim C1 is false as stated: on a state with non-null `currentTaskId` but
an empty votes map (here additionally the falsy id `""`), `RESET` leaves the
previously current task neither `completed` nor with a `finalScore`. -/
theorem reset_closes_round_counterexample :
    stC1.game.currentTaskId = some "" ∧
    (handleMessage stC1 msgC1).1.game.votes = [] ∧
    (handleMessage stC1 msgC1).1.game.isRevealed = false ∧
    (handleMessage stC1 msgC1).1.game.currentTaskId = none ∧
    (handleMessage stC1 msgC1).1.game.tasks = [⟨"", "T", .active, none⟩] ∧
    ∃ t ∈ (handleMessage stC1 msgC1).1.game.tasks,
      t.id = "" ∧ t.status ≠ .completed ∧ t.finalScore = none := by
  refine ⟨rfl, by decide, by decide, by decide, by decide, by decide⟩

/-- Claim C1 (amended): for every state whose `currentTaskId` is a non-empty
task id and whose votes map is non-empty, `RESET` yields `votes = {}`,
`isRevealed = false`, `currentTaskId = null`, and every task carrying the
previously current id ends up `completed` with `finalScore` set. -/
theorem reset_closes_round (st : AppState) (msg : NetworkMessage) (tid : String)
    (hg : roomGuardBlocks st.game msg.roomId = false)
    (hp : msg.payload = .reset)
    (htid : st.game.currentTaskId = some tid) (hne : tid ≠ "")
    (hv : votesValues st.game ≠ []) :
    (handleMessage st msg).1.game.votes = [] ∧
    (handleMessage st msg).1.game.isRevealed = false ∧
    (handleMessage st msg).1.game.currentTaskId = none ∧
    ∀ t ∈ (handleMessage st msg).1.game.tasks,
      t.id = tid → t.status = .completed ∧ t.finalScore ≠ none := by
  rw [handleMessage_eq_dispatch st msg hg, reset_game_eq st msg hp]
  have htru : jsTruthy st.game.currentTaskId = true := by
    rw [htid]
    simpa [jsTruthy] using hne
  refine ⟨rfl, rfl, rfl, ?_⟩
  intro t ht hid
  rw [if_pos htru] at ht
  rcases List.mem_map.mp ht with ⟨t0, _, heq⟩
  by_cases hmatch : (some t0.id == st.game.currentTaskId) = true
  · rw [if_pos hmatch] at heq
    subst heq
    exact ⟨rfl, computeFinalScore_ne_none _ hv⟩
  · rw [if_neg (by simpa using hmatch)] at heq
    subst heq
    rw [htid] at hmatch
    simp [hid] at hmatch

/-- A state with one active current task and one cast vote for the C1
witness. -/
def stC1w : AppState :=
  { game := { roomId := some "R", users := [⟨"a", "A", true⟩], votes := [("a", .str "?")],
              tasks := [⟨"t1", "T", .active, none⟩], currentTaskId := some "t1",
              isRevealed := true },
    currentUser := none }

/-- Witness for `reset_closes_round` on a concrete one-vote round: the round
closes and the current task completes with the score set. -/
theorem reset_closes_round_witness :
    (handleMessage stC1w msgC1).1.game.votes = [] ∧
    (handleMessage stC1w msgC1).1.game.isRevealed = false ∧
    (handleMessage stC1w msgC1).1.game.currentTaskId = none ∧
    (handleMessage stC1w msgC1).1.game.tasks =
      [Task.mk "t1" "T" .completed (some (.str "?"))] := by
  have h := reset_closes_round stC1w msgC1 "t1" (by decide) rfl rfl (by decide) (by decide)
  exact ⟨h.1, h.2.1, h.2.2.1, by decide⟩

/-! ## Claim C6: RESET with an empty votes map assigns no score -/

/-- A state with the falsy current task id `""`, an empty votes map, and a
matching task that already carries a final score. -/
def stC6 : AppState :=
  { game := { roomId := some "R", users := [], votes := [],
              tasks := [⟨"", "Ghost", .completed, some (.num 5)⟩], currentTaskId := some "",
              isRevealed := false },
    currentUser := none }

/-- The `RESET` envelope for the C6 counterexample and witness. -/
def msgC6 : NetworkMessage := { roomId := "R", senderId := "h", payload := .reset }

/-- Claim C6 is false as stated: with the non-null but falsy current task id
`""` and empty votes, `RESET` skips the task update entirely, so a previously
set `finalScore` on the matching task remains set rather than unset. -/
theorem reset_empty_votes_counterexample :
    stC6.game.currentTaskId = some "" ∧
    stC6.game.votes = [] ∧
    (handleMessage stC6 msgC6).1.game.tasks = [⟨"", "Ghost", .completed, some (.num 5)⟩] ∧
    ∃ t ∈ (handleMessage stC6 msgC6).1.game.tasks, t.id = "" ∧ t.finalScore ≠ none := by
  refine ⟨rfl, rfl, by decide, by decide⟩

/-- Claim C6 (amended): for every state whose `currentTaskId` is a non-empty
task id and whose votes map is empty, `RESET` leaves every task carrying the
current id without a `finalScore`. -/
theorem reset_empty_votes_no_score (st : AppState) (msg : NetworkMessage) (tid : String)
    (hg : roomGuardBlocks st.game msg.roomId = false)
    (hp : msg.payload = .reset)
    (htid : st.game.currentTaskId = some tid) (hne : tid ≠ "")
    (hv : st.game.votes = []) :
    ∀ t ∈ (handleMessage st msg).1.game.tasks, t.id = tid → t.finalScore = none := by
  rw [handleMessage_eq_dispatch st msg hg, reset_game_eq st msg hp]
  have htru : jsTruthy st.game.currentTaskId = true := by
    rw [htid]
    simpa [jsTruthy] using hne
  have hscore : computeFinalScore (votesValues st.game) = none := by
    rw [votesValues, hv]
    rfl
  intro t ht hid
  rw [if_pos htru] at ht
  rcases List.mem_map.mp ht with ⟨t0, _, heq⟩
  by_cases hmatch : (some t0.id == st.game.currentTaskId) = true
  · rw [if_pos hmatch] at heq
    subst heq
    exact hscore
  · rw [if_neg (by simpa using hmatch)] at heq
    subst heq
    rw [htid] at hmatch
    simp [hid] at hmatch

/-- A state with an active current task, no votes cast, for the C6 witness. -/
def stC6w : AppState :=
  { game := { roomId := some "R", users := [⟨"a", "A", true⟩], votes := [],
              tasks := [⟨"t1", "T", .active, none⟩], currentTaskId := some "t1",
              isRevealed := false },
    currentUser := none }

/-- Witness for `reset_empty_votes_no_score` on a concrete empty round: the
completed task carries no final score. -/
theorem reset_empty_votes_no_score_witness :
    Task.mk "t1" "T" .completed none ∈ (handleMessage stC6w msgC6).1.game.tasks ∧
    (Task.mk "t1" "T" TaskStatus.completed none).finalScore = none := by
  have h := reset_empty_votes_no_score stC6w msgC6 "t1" (by decide) rfl rfl (by decide) rfl
  have hmem : Task.mk "t1" "T" .completed none ∈ (handleMessage stC6w msgC6).1.game.tasks := by
    decide
  exact ⟨hmem, h (Task.mk "t1" "T" .completed none) hmem rfl⟩

/-! ## Claim C4: host succession on USER_LEFT -/

/-- A state in which a second host (`"c"`) is already present besides the
departing host (`"a"`). -/
def stC4 : AppState :=
  { game := { roomId := some "R",
              users := [⟨"a", "A", true⟩, ⟨"b", "B", false⟩, ⟨"c", "C", true⟩],
              votes := [], tasks := [], currentTaskId := none, isRevealed := false },
    currentUser := none }

/-- The `USER_LEFT` envelope removing host `"a"`. -/
def msgC4 : NetworkMessage := { roomId := "R", senderId := "transport", payload := .userLeft "a" }

/-- Claim C4 is false as stated: removing host `"a"` promotes the first
remaining user but never demotes the other pre-existing host `"c"`, so two
users end up with `isHost = true` instead of exactly one. -/
theorem host_succession_counterexample :
    (stC4.game.users.find? (fun u => u.id == "a")).map User.isHost = some true ∧
    stC4.game.users.filter (fun u => u.id != "a") ≠ [] ∧
    (handleMessage stC4 msgC4).1.game.users = [⟨"b", "B", true⟩, ⟨"c", "C", true⟩] ∧
    ((handleMessage stC4 msgC4).1.game.users.countP (fun u => u.isHost)) = 2 := by
  refine ⟨rfl, by decide, by decide, by decide⟩

/-- Claim C4 (amended): if the user removed by `USER_LEFT` is a host, at
least one user remains, and no *remaining* user is a host, then the first
remaining user in the local ordering is promoted, it is the only host
afterwards, and a local participant matching it flips its own `isHost` flag
to true. -/
theorem host_succession (st : AppState) (msg : NetworkMessage) (leftId : String)
    (lu u0 : User) (rest : List User)
    (hg : roomGuardBlocks st.game msg.roomId = false)
    (hp : msg.payload = .userLeft leftId)
    (hfind : st.game.users.find? (fun u => u.id == leftId) = some lu)
    (hhost : lu.isHost = true)
    (hrem : st.game.users.filter (fun u => u.id != leftId) = u0 :: rest)
    (hnohost : ∀ u ∈ u0 :: rest, u.isHost = false) :
    (handleMessage st msg).1.game.users = { u0 with isHost := true } :: rest ∧
    ((handleMessage st msg).1.game.users.countP (fun u => u.isHost)) = 1 ∧
    (∀ cu, st.currentUser = some cu → cu.id = u0.id →
        (handleMessage st msg).1.currentUser = some { cu with isHost := true }) := by
  rw [handleMessage_eq_dispatch st msg hg]
  have husers : (dispatch st msg).1.game.users = { u0 with isHost := true } :: rest := by
    simp [dispatch, hp, hfind, hrem, hhost, promoteFirst]
  refine ⟨husers, ?_, ?_⟩
  · rw [husers, List.countP_cons]
    have h0 : List.countP (fun u => u.isHost) rest = 0 :=
      List.countP_eq_zero.mpr (fun u hu => by
        simp [hnohost u (List.mem_cons_of_mem u0 hu)])
    simp [h0]
  · intro cu hcu hid
    simp [dispatch, hp, hfind, hrem, hhost, promoteFirst, hcu, hid]

/-- A three-user state whose local participant `"b"` is the first remaining
user when host `"a"` departs. -/
def stC4w : AppState :=
  { game := { roomId := some "R",
              users := [⟨"a", "A", true⟩, ⟨"b", "B", false⟩, ⟨"c", "C", false⟩],
              votes := [], tasks := [], currentTaskId := none, isRevealed := false },
    currentUser := some ⟨"b", "B", false⟩ }

/-- Witness for `host_succession`: after the sole host `"a"` leaves, `"b"` is
promoted, is the only host, and the own flag of the local replica flips. -/
theorem host_succession_witness :
    (handleMessage stC4w msgC4).1.game.users = [⟨"b", "B", true⟩, ⟨"c", "C", false⟩] ∧
    ((handleMessage stC4w msgC4).1.game.users.countP (fun u => u.isHost)) = 1 ∧
    (handleMessage stC4w msgC4).1.currentUser = some ⟨"b", "B", true⟩ := by
  have h := host_succession stC4w msgC4 "a" ⟨"a", "A", true⟩ ⟨"b", "B", false⟩
    [⟨"c", "C", false⟩] (by decide) rfl (by decide) rfl (by decide) (by decide)
  exact ⟨h.1, h.2.1, h.2.2 ⟨"b", "B", false⟩ rfl rfl⟩

/-! ## Claim C3: the votes-keys-are-user-ids invariant -/

/-- The data-model invariant: every key of the votes map is the id of some
user currently present in `users`. -/
def VotesUsersInv (g : GameState) : Prop :=
  ∀ k ∈ g.votes.map Prod.fst, k ∈ g.users.map User.id

theorem promoteFirst_map_id (l : List User) :
    (promoteFirst l).map User.id = l.map User.id := by
  cases l <;> rfl

/-- A state with no users at all, trivially satisfying the invariant. -/
def stC3 : AppState :=
  { game := { roomId := some "R", users := [], votes := [], tasks := [],
              currentTaskId := none, isRevealed := false },
    currentUser := none }

/-- A `VOTE` for a user id that is not present in `users`. -/
def msgC3 : NetworkMessage := { roomId := "R", senderId := "u1", payload := .vote "u1" (.str "5") }

/-- Claim C3 is false as stated: `VOTE` upserts `votes[payload.userId]`
without any membership check, so a vote for an absent user id breaks the
invariant on a state that satisfied it. -/
theorem votes_subset_users_counterexample :
    VotesUsersInv stC3.game ∧ ¬ VotesUsersInv (handleMessage stC3 msgC3).1.game := by
  constructor
  · intro k hk
    cases hk
  · have hstate : (handleMessage stC3 msgC3).1.game =
        { roomId := some "R", users := [], votes := [("u1", .str "5")], tasks := [],
          currentTaskId := none, isRevealed := false } := by decide
    rw [hstate]
    unfold VotesUsersInv
    decide

/-- Claim C3 (amended): the invariant is preserved by every message type
except the two unguarded ones — by `VOTE` it is preserved exactly under the
side condition that the voted user id is present in `users`, and by
`SYNC_RESPONSE` under the side condition that the carried snapshot itself
satisfies the invariant; every other message type preserves it
unconditionally. -/
theorem votes_subset_users_preserved (st : AppState) (msg : NetworkMessage)
    (hinv : VotesUsersInv st.game)
    (hside : match msg.payload with
      | .vote uid _ => uid ∈ st.game.users.map User.id
      | .syncResponse s => VotesUsersInv s
      | _ => True) :
    VotesUsersInv (handleMessage st msg).1.game := by
  unfold handleMessage
  by_cases hb : roomGuardBlocks st.game msg.roomId = true
  · rw [if_pos hb]
    exact hinv
  · rw [if_neg hb]
    cases hpe : msg.payload with
    | join u =>
        intro k hk
        simp only [dispatch, hpe] at hk ⊢
        by_cases hmem : (st.game.users.any (fun w => w.id == u.id)) = true
        · rw [if_pos hmem] at hk ⊢
          exact hinv k hk
        · rw [if_neg hmem] at hk ⊢
          have := hinv k hk
          simp only [List.map_append]
          exact List.mem_append_left _ this
    | userLeft leftId =>
        intro k hk
        simp only [dispatch, hpe] at hk ⊢
        rcases List.mem_map.mp hk with ⟨p, hp1, hp2⟩
        rcases List.mem_filter.mp hp1 with ⟨hpv, hpk⟩
        have hk0 : k ∈ st.game.votes.map Prod.fst := List.mem_map.mpr ⟨p, hpv, hp2⟩
        have hne : k ≠ leftId := by
          subst hp2
          simpa using hpk
        have hku : k ∈ st.game.users.map User.id := hinv k hk0
        rcases List.mem_map.mp hku with ⟨u, hu1, hu2⟩
        have hufilter : u ∈ st.game.users.filter (fun w => w.id != leftId) := by
          refine List.mem_filter.mpr ⟨hu1, ?_⟩
          subst hu2
          simpa using hne
        by_cases hpro : ((match st.game.users.find? (fun w => w.id == leftId) with
            | some w => w.isHost
            | none => false) = true ∧
            0 < (st.game.users.filter (fun w => w.id != leftId)).length)
        · rw [if_pos (by simpa using hpro), promoteFirst_map_id]
          exact List.mem_map.mpr ⟨u, hufilter, hu2⟩
        · rw [if_neg (by simpa using hpro)]
          exact List.mem_map.mpr ⟨u, hufilter, hu2⟩
    | promoteUser target =>
        intro k hk
        simp only [dispatch, hpe] at hk ⊢
        have := hinv k hk
        rcases List.mem_map.mp this with ⟨u, hu1, hu2⟩
        exact List.mem_map.mpr ⟨{ u with isHost := u.id == target },
          List.mem_map.mpr ⟨u, hu1, rfl⟩, hu2⟩
    | syncRequest =>
        simp only [dispatch, hpe]
        exact hinv
    | syncResponse s =>
        simp only [hpe] at hside
        intro k hk
        simp only [dispatch, hpe] at hk ⊢
        exact hside k hk
    | vote uid v =>
        simp only [hpe] at hside
        intro k hk
        simp only [dispatch, hpe] at hk ⊢
        unfold upsertVote at hk
        by_cases hmem : (st.game.votes.any (fun p => p.1 == uid)) = true
        · rw [if_pos hmem] at hk
          rcases List.mem_map.mp hk with ⟨p, hp1, hp2⟩
          rcases List.mem_map.mp hp1 with ⟨q, hq1, hq2⟩
          by_cases hq : (q.1 == uid) = true
          · rw [if_pos hq] at hq2
            subst hq2
            subst hp2
            exact hside
          · rw [if_neg (by simpa using hq)] at hq2
            subst hq2
            subst hp2
            exact hinv q.1 (List.mem_map.mpr ⟨q, hq1, rfl⟩)
        · rw [if_neg hmem] at hk
          simp only [List.map_append] at hk
          rcases List.mem_append.mp hk with h1 | h2
          · exact hinv k h1
          · have : k = uid := by simpa using h2
            subst this
            exact hside
    | reveal =>
        simp only [dispatch, hpe]
        exact hinv
    | reset =>
        intro k hk
        simp only [dispatch, hpe] at hk
        cases hk
    | addTask t =>
        simp only [dispatch, hpe]
        exact hinv
    | deleteTask tid =>
        simp only [dispatch, hpe]
        exact hinv
    | updateTask tid title =>
        simp only [dispatch, hpe]
        exact hinv
    | selectTask tid =>
        intro k hk
        simp only [dispatch, hpe] at hk
        cases hk

/-- A one-user state for the invariant-preservation witness. -/
def stC3w : AppState :=
  { game := { roomId := some "R", users := [⟨"a", "A", true⟩], votes := [], tasks := [],
              currentTaskId := none, isRevealed := false },
    currentUser := none }

/-- A `VOTE` by the present user `"a"`. -/
def msgC3w : NetworkMessage := { roomId := "R", senderId := "a", payload := .vote "a" (.str "3") }

/-- Witness for `votes_subset_users_preserved`: after a vote by the present
user `"a"`, that vote key is indeed a present user id. -/
theorem votes_subset_users_preserved_witness :
    "a" ∈ (handleMessage stC3w msgC3w).1.game.users.map User.id := by
  have h := votes_subset_users_preserved stC3w msgC3w (by simp [VotesUsersInv, stC3w])
    (by simp [msgC3w, stC3w])
  exact h "a" (by decide)

/-! ## Claim C7: plurality fallback for all-non-numeric votes -/

theorem sorted_getLast?_max {α : Type} (key : α → Nat) :
    ∀ (l : List α) (m : α), List.Sorted (fun a b => key a ≤ key b) l →
      l.getLast? = some m → ∀ a ∈ l, key a ≤ key m
  | [], _, _, hlast, _, ha => by cases hlast
  | [x], m, _, hlast, a, ha => by
      have hm : m = x := by
        simpa using hlast.symm
      have hax : a = x := by simpa using ha
      subst hm
      subst hax
      exact Nat.le_refl _
  | x :: y :: ys, m, hsort, hlast, a, ha => by
      rw [List.getLast?_cons_cons] at hlast
      rcases List.mem_cons.mp ha with hax | hatl
      · subst hax
        have hmem : m ∈ y :: ys := List.mem_of_getLast?_eq_some hlast
        exact List.rel_of_sorted_cons hsort m hmem
      · exact sorted_getLast?_max key (y :: ys) m hsort.of_cons hlast a hatl

theorem sortVotes_sorted (vals : List Value) :
    List.Sorted (fun a b => countVal vals a ≤ countVal vals b) (sortVotes vals) := by
  haveI : IsTotal Value (fun a b => countVal vals a ≤ countVal vals b) :=
    ⟨fun a b => Nat.le_total _ _⟩
  haveI : IsTrans Value (fun a b => countVal vals a ≤ countVal vals b) :=
    ⟨fun a b c hab hbc => Nat.le_trans hab hbc⟩
  exact List.sorted_insertionSort _ vals

theorem computeFinalScore_nonnumeric (vals : List Value)
    (hne : vals ≠ []) (hnonum : vals.filterMap jsNumber = []) :
    computeFinalScore vals = (sortVotes vals).getLast? := by
  unfold computeFinalScore
  rw [if_pos (List.length_pos.mpr hne), if_neg (by rw [hnonum]; simp)]

/-- Claim C7: when the vote set is non-empty and no vote parses as a number,
the score computed on `RESET` is a cast vote value of maximal occurrence
count, and it is written into the current task. -/
theorem reset_plurality_nonnumeric (st : AppState) (msg : NetworkMessage) (tid : String)
    (hg : roomGuardBlocks st.game msg.roomId = false)
    (hp : msg.payload = .reset)
    (htid : st.game.currentTaskId = some tid) (hne : tid ≠ "")
    (hvne : votesValues st.game ≠ [])
    (hnonum : numericVotesOf st.game = []) :
    ∃ v, computeFinalScore (votesValues st.game) = some v ∧
      v ∈ votesValues st.game ∧
      (∀ w ∈ votesValues st.game,
        countVal (votesValues st.game) w ≤ countVal (votesValues st.game) v) ∧
      (handleMessage st msg).1.game.tasks =
        st.game.tasks.map (fun t =>
          if some t.id == st.game.currentTaskId then
            { t with status := .completed, finalScore := some v }
          else t) := by
  have hcfs : computeFinalScore (votesValues st.game) = (sortVotes (votesValues st.game)).getLast? :=
    computeFinalScore_nonnumeric _ hvne hnonum
  have hsne : sortVotes (votesValues st.game) ≠ [] := by
    unfold sortVotes
    intro hc
    exact hvne (List.eq_nil_of_length_eq_zero (by
      rw [← List.length_insertionSort
          (fun a b => countVal (votesValues st.game) a ≤ countVal (votesValues st.game) b)
          (votesValues st.game), hc]
      rfl))
  obtain ⟨m, hm⟩ := Option.isSome_iff_exists.mp (List.getLast?_isSome.mpr hsne)
  have hscore : computeFinalScore (votesValues st.game) = some m := hcfs.trans hm
  refine ⟨m, hscore, ?_, ?_, ?_⟩
  · exact (List.mem_insertionSort _).mp (List.mem_of_getLast?_eq_some hm)
  · intro w hw
    exact sorted_getLast?_max _ (sortVotes (votesValues st.game)) m
      (sortVotes_sorted (votesValues st.game)) hm w
      ((List.mem_insertionSort _).mpr hw)
  · have htru : jsTruthy st.game.currentTaskId = true := by
      rw [htid]
      simpa [jsTruthy] using hne
    rw [handleMessage_eq_dispatch st msg hg, reset_game_eq st msg hp]
    simp only [if_pos htru, hscore]

/-- A state whose three cast votes are all non-numeric, with the
question-mark token as plurality value. -/
def stC7w : AppState :=
  { game := { roomId := some "R",
              users := [⟨"A", "A", true⟩, ⟨"B", "B", false⟩, ⟨"C", "C", false⟩],
              votes := [("A", .str "?"), ("B", .str "?"), ("C", .str "☕")],
              tasks := [⟨"t1", "T", .active, none⟩], currentTaskId := some "t1",
              isRevealed := true },
    currentUser := none }

/-- The `RESET` envelope for the C7 witness. -/
def msgC7w : NetworkMessage := { roomId := "R", senderId := "A", payload := .reset }

/-- Witness for `reset_plurality_nonnumeric`: two question-mark votes and one
coffee vote give the question-mark token as plurality final score. -/
theorem reset_plurality_nonnumeric_witness :
    computeFinalScore (votesValues stC7w.game) = some (.str "?") ∧
    (handleMessage stC7w msgC7w).1.game.tasks =
      stC7w.game.tasks.map (fun t =>
        if some t.id == stC7w.game.currentTaskId then
          { t with status := .completed, finalScore := some (.str "?") }
        else t) := by
  obtain ⟨v, h1, h2, h3, h4⟩ := reset_plurality_nonnumeric stC7w msgC7w "t1"
    (by decide) rfl rfl (by decide) (by decide) (by decide)
  have h5 : computeFinalScore (votesValues stC7w.game) = some (Value.str "?") := by decide
  have hv : v = Value.str "?" := Option.some.inj (h1.symm.trans h5)
  subst hv
  exact ⟨h1, h4⟩

/-! ## Claim C2: numeric consensus is the closest token, ties to the smaller -/

theorem foldl_closest_spec (q : ℚ) (l : List ℚ) : ∀ (p r : ℚ),
    List.Sorted (· ≤ ·) (p :: l) →
    l.foldl (fun prev curr => if |curr - q| < |prev - q| then curr else prev) p = r →
    (r = p ∨ (r ∈ l ∧ |r - q| < |p - q|)) ∧
    (∀ t ∈ p :: l, |r - q| ≤ |t - q|) ∧
    (∀ t ∈ p :: l, |t - q| = |r - q| → r ≤ t) := by
  induction l with
  | nil =>
      intro p r _ hr
      rw [List.foldl_nil] at hr
      subst hr
      refine ⟨Or.inl rfl, ?_, ?_⟩
      · intro t ht
        have : t = p := by simpa using ht
        subst this
        exact le_refl _
      · intro t ht _
        have : t = p := by simpa using ht
        subst this
        exact le_refl _
  | cons x xs ih =>
      intro p r hsort hr
      simp only [List.foldl_cons] at hr
      rcases List.sorted_cons.mp hsort with ⟨hp_all, hsort_tail⟩
      rcases List.sorted_cons.mp hsort_tail with ⟨hx_all, hxs⟩
      by_cases hc : |x - q| < |p - q|
      · rw [if_pos hc] at hr
        obtain ⟨h1, h2, h3⟩ := ih x r hsort_tail hr
        refine ⟨?_, ?_, ?_⟩
        · rcases h1 with hrx | ⟨hmem, hlt⟩
          · exact Or.inr ⟨by rw [hrx]; exact List.mem_cons_self x xs, by rw [hrx]; exact hc⟩
          · exact Or.inr ⟨List.mem_cons_of_mem x hmem, lt_trans hlt hc⟩
        · intro t ht
          rcases List.mem_cons.mp ht with htp | htl
          · subst htp
            exact le_of_lt (lt_of_le_of_lt (h2 x (List.mem_cons_self x xs)) hc)
          · exact h2 t htl
        · intro t ht htie
          rcases List.mem_cons.mp ht with htp | htl
          · subst htp
            have habs : |r - q| < |t - q| := lt_of_le_of_lt (h2 x (List.mem_cons_self x xs)) hc
            rw [htie] at habs
            exact absurd habs (lt_irrefl _)
          · exact h3 t htl htie
      · rw [if_neg hc] at hr
        have hnc : |p - q| ≤ |x - q| := le_of_not_lt hc
        have hsort' : List.Sorted (· ≤ ·) (p :: xs) :=
          List.sorted_cons.mpr ⟨fun b hb => hp_all b (List.mem_cons_of_mem x hb), hxs⟩
        obtain ⟨h1, h2, h3⟩ := ih p r hsort' hr
        refine ⟨?_, ?_, ?_⟩
        · rcases h1 with hrp | ⟨hmem, hlt⟩
          · exact Or.inl hrp
          · exact Or.inr ⟨List.mem_cons_of_mem x hmem, hlt⟩
        · intro t ht
          rcases List.mem_cons.mp ht with htp | htl
          · subst htp
            exact h2 t (List.mem_cons_self t xs)
          · rcases List.mem_cons.mp htl with htx | htxs
            · subst htx
              exact le_trans (h2 p (List.mem_cons_self p xs)) hnc
            · exact h2 t (List.mem_cons_of_mem p htxs)
        · intro t ht htie
          rcases List.mem_cons.mp ht with htp | htl
          · subst htp
            exact h3 t (List.mem_cons_self t xs) htie
          · rcases List.mem_cons.mp htl with htx | htxs
            · subst htx
              rcases h1 with hrp | ⟨_, hlt⟩
              · rw [hrp]
                exact hp_all t (List.mem_cons_self t xs)
              · have : |r - q| < |t - q| := lt_of_lt_of_le hlt hnc
                rw [htie] at this
                exact absurd this (lt_irrefl _)
            · exact h3 t (List.mem_cons_of_mem p htxs) htie

theorem getClosestFibonacci_spec (q : ℚ) :
    getClosestFibonacci q ∈ fibNums ∧
    (∀ t ∈ fibNums, |getClosestFibonacci q - q| ≤ |t - q|) ∧
    (∀ t ∈ fibNums, |t - q| = |getClosestFibonacci q - q| → getClosestFibonacci q ≤ t) := by
  have hfib : fibNums = 0 :: [1, 2, 3, 5, 8, 13, 21, 34, 55] := by decide
  have hsort : List.Sorted (· ≤ ·) ((0 : ℚ) :: [1, 2, 3, 5, 8, 13, 21, 34, 55]) := by
    norm_num [List.sorted_cons]
  have heq : List.foldl (fun prev curr => if |curr - q| < |prev - q| then curr else prev) 0
      [1, 2, 3, 5, 8, 13, 21, 34, 55] = getClosestFibonacci q := by
    rw [getClosestFibonacci, hfib]
    rfl
  obtain ⟨h1, h2, h3⟩ :=
    foldl_closest_spec q [1, 2, 3, 5, 8, 13, 21, 34, 55] 0 (getClosestFibonacci q) hsort heq
  refine ⟨?_, ?_, ?_⟩
  · rw [hfib]
    rcases h1 with hr0 | ⟨hmem, _⟩
    · rw [hr0]
      exact List.mem_cons_self _ _
    · exact List.mem_cons_of_mem _ hmem
  · intro t ht
    rw [hfib] at ht
    exact h2 t ht
  · intro t ht
    rw [hfib] at ht
    exact h3 t ht

theorem computeFinalScore_numeric (vals : List Value)
    (h : vals.filterMap jsNumber ≠ []) :
    computeFinalScore vals =
      some (.num (getClosestFibonacci (meanOf (vals.filterMap jsNumber)))) := by
  have hv : vals ≠ [] := by
    intro hc
    rw [hc] at h
    exact h rfl
  unfold computeFinalScore
  rw [if_pos (List.length_pos.mpr hv), if_pos (List.length_pos.mpr h)]

/-- Claim C2: when at least one vote parses as a number, the score computed
on `RESET` is the numeric-domain token with minimum absolute distance to the
arithmetic mean of the numeric votes, ties broken toward the smaller token,
and it is written into the current task. -/
theorem reset_score_closest_fib (st : AppState) (msg : NetworkMessage) (tid : String)
    (hg : roomGuardBlocks st.game msg.roomId = false)
    (hp : msg.payload = .reset)
    (htid : st.game.currentTaskId = some tid) (hne : tid ≠ "")
    (hnum : numericVotesOf st.game ≠ []) :
    computeFinalScore (votesValues st.game) =
      some (.num (getClosestFibonacci (meanOf (numericVotesOf st.game)))) ∧
    (handleMessage st msg).1.game.tasks =
      st.game.tasks.map (fun t =>
        if some t.id == st.game.currentTaskId then
          { t with status := .completed,
                   finalScore :=
                     some (.num (getClosestFibonacci (meanOf (numericVotesOf st.game)))) }
        else t) ∧
    getClosestFibonacci (meanOf (numericVotesOf st.game)) ∈ fibNums ∧
    (∀ t ∈ fibNums,
      |getClosestFibonacci (meanOf (numericVotesOf st.game)) - meanOf (numericVotesOf st.game)| ≤
        |t - meanOf (numericVotesOf st.game)|) ∧
    (∀ t ∈ fibNums,
      |t - meanOf (numericVotesOf st.game)| =
          |getClosestFibonacci (meanOf (numericVotesOf st.game)) -
            meanOf (numericVotesOf st.game)| →
        getClosestFibonacci (meanOf (numericVotesOf st.game)) ≤ t) := by
  have hscore : computeFinalScore (votesValues st.game) =
      some (.num (getClosestFibonacci (meanOf (numericVotesOf st.game)))) :=
    computeFinalScore_numeric (votesValues st.game) hnum
  have htru : jsTruthy st.game.currentTaskId = true := by
    rw [htid]
    simpa [jsTruthy] using hne
  obtain ⟨hs1, hs2, hs3⟩ := getClosestFibonacci_spec (meanOf (numericVotesOf st.game))
  refine ⟨hscore, ?_, hs1, hs2, hs3⟩
  rw [handleMessage_eq_dispatch st msg hg, reset_game_eq st msg hp]
  simp only [if_pos htru, hscore]

/-- A state with the numeric votes 3, 5, 8 and an active current task. -/
def stC2w : AppState :=
  { game := { roomId := some "R",
              users := [⟨"A", "A", true⟩, ⟨"B", "B", false⟩, ⟨"C", "C", false⟩],
              votes := [("A", .str "3"), ("B", .str "5"), ("C", .str "8")],
              tasks := [⟨"t1", "T", .active, none⟩], currentTaskId := some "t1",
              isRevealed := true },
    currentUser := none }

/-- The `RESET` envelope for the C2 witness. -/
def msgC2w : NetworkMessage := { roomId := "R", senderId := "A", payload := .reset }

/-- Witness for `reset_score_closest_fib`: the votes 3, 5, 8 have mean 16/3
and `RESET` scores the task with the nearest token 5. -/
theorem reset_score_closest_fib_witness :
    computeFinalScore (votesValues stC2w.game) = some (.num 5) ∧
    (handleMessage stC2w msgC2w).1.game.tasks =
      [⟨"t1", "T", .completed, some (.num 5)⟩] := by
  have h := reset_score_closest_fib stC2w msgC2w "t1" (by decide) rfl rfl (by decide) (by decide)
  have hmean : meanOf (numericVotesOf stC2w.game) = 16 / 3 := by
    have hnv : numericVotesOf stC2w.game = [3, 5, 8] := by decide
    rw [hnv]
    norm_num [meanOf, List.foldl]
  have hclos : getClosestFibonacci (16 / 3) = 5 := by
    have hfib : fibNums = [0, 1, 2, 3, 5, 8, 13, 21, 34, 55] := by decide
    simp only [getClosestFibonacci, reduceClosest, hfib, List.foldl]
    norm_num [← sq_lt_sq]
  have hv : (Value.num (getClosestFibonacci (meanOf (numericVotesOf stC2w.game)))) =
      Value.num 5 := by
    rw [hmean, hclos]
  constructor
  · rw [h.1, hv]
  · rw [h.2.1, hv]
    decide

end PlanningPoker
